import Mathlib

/-!
Verification of the dat-patch-rust incremental backup tool.

The development shallowly embeds the program's core: calendar arithmetic
(chrono `NaiveDate` / `DateTime` values become integers and civil-date
records), the month selector (`backup_logic.rs`), the file scanner
(`file_scanner.rs`), the cache store (`cache.rs`), the retention pruner
(`cleaner.rs`), the archive-naming line of `archiver.rs`, and the cache-update
discipline of `main.rs`.  Instants are seconds since the Unix epoch (UTC);
naive local date-times are seconds on the local naive timeline; the local
timezone is an explicit parameter giving chrono's `LocalResult` for
naive-to-UTC conversion.  Filesystem traversal and directory listings are
explicit lists of walk results, fallible reads are `Except` values, and a
chrono `unwrap` panic is modelled as an `Option.none` result.
-/

set_option maxHeartbeats 1000000

/-- Leap-year rule of the proleptic Gregorian calendar (chrono `NaiveDate`). -/
def isLeap (y : Int) : Bool := y % 4 == 0 && (y % 100 != 0 || y % 400 == 0)

/-- Number of days in a month of the proleptic Gregorian calendar. -/
def daysInMonth (y : Int) (m : Nat) : Nat :=
  match m with
  | 1 => 31
  | 2 => if isLeap y then 29 else 28
  | 3 => 31
  | 4 => 30
  | 5 => 31
  | 6 => 30
  | 7 => 31
  | 8 => 31
  | 9 => 30
  | 10 => 31
  | 11 => 30
  | 12 => 31
  | _ => 0

/-- Calendar date, the shallow embedding of chrono `NaiveDate`. -/
structure Date where
  year : Int
  month : Nat
  day : Nat
deriving DecidableEq, Repr

/-- Dates chrono `from_ymd_opt` accepts (the year bounds of chrono, about
±262000, are irrelevant to every claim and are not modelled). -/
def validDate (dt : Date) : Prop :=
  1 ≤ dt.month ∧ dt.month ≤ 12 ∧ 1 ≤ dt.day ∧ dt.day ≤ daysInMonth dt.year dt.month

instance (dt : Date) : Decidable (validDate dt) := by
  unfold validDate; infer_instance

/-- Day number of a civil date with day 0 = 1970-01-01: the standard
days-from-civil computation, extensionally the day count underlying chrono
`NaiveDate` subtraction. -/
def daysFromCivil (y : Int) (m d : Nat) : Int :=
  let ys : Int := if m ≤ 2 then y - 1 else y
  let era : Int := ys / 400
  let yoe : Int := ys - era * 400
  let mp : Nat := (m + 9) % 12
  let doy : Int := (153 * (mp : Int) + 2) / 5 + (d : Int) - 1
  let doe : Int := yoe * 365 + yoe / 4 - yoe / 100 + doy
  era * 146097 + doe - 719468

def daysFromCivilD (dt : Date) : Int := daysFromCivil dt.year dt.month dt.day

/-- Civil date of a day number: inverse of `daysFromCivil` (the standard
civil-from-days computation), used to embed chrono `date_naive`. -/
def civilFromDays (z0 : Int) : Date :=
  let z : Int := z0 + 719468
  let era : Int := z / 146097
  let doe : Int := z - era * 146097
  let yoe : Int := (doe - doe / 1460 + doe / 36524 - doe / 146096) / 365
  let y : Int := yoe + era * 400
  let doy : Int := doe - (365 * yoe + yoe / 4 - yoe / 100)
  let mp : Int := (5 * doy + 2) / 153
  let d : Int := doy - (153 * mp + 2) / 5 + 1
  let m : Int := mp + (if mp < 10 then 3 else -9)
  ⟨(if m ≤ 2 then y + 1 else y), m.toNat, d.toNat⟩

/-- Previous calendar day: the extensional behavior of chrono
`NaiveDate::pred_opt` away from the minimum representable date. -/
def predDate (dt : Date) : Date :=
  if 1 < dt.day then ⟨dt.year, dt.month, dt.day - 1⟩
  else if 1 < dt.month then ⟨dt.year, dt.month - 1, daysInMonth dt.year (dt.month - 1)⟩
  else ⟨dt.year - 1, 12, 31⟩

/-- UTC instant (seconds since the epoch) of a UTC calendar date-time:
embedding of chrono `Utc.with_ymd_and_hms`. -/
def utcTimestamp (y : Int) (m d h mi s : Nat) : Int :=
  86400 * daysFromCivil y m d + 3600 * (h : Int) + 60 * (mi : Int) + (s : Int)

/-- Seconds-since-epoch position of local midnight of a date on the naive
local timeline (chrono `NaiveDate::and_hms_opt(0,0,0)`). -/
def naiveMidnight (dt : Date) : Int := 86400 * daysFromCivilD dt

/-- Result of converting a naive local date-time to an instant: chrono
`LocalResult` from `TimeZone::from_local_datetime`. -/
inductive LocalRes where
  | nonexistent : LocalRes
  | single : Int → LocalRes
  | ambiguous : Int → Int → LocalRes
deriving DecidableEq, Repr

/-- The ambient local timezone, as explicit state: `fromLocal` maps a naive
local date-time (seconds on the naive local timeline) to its UTC
interpretation(s); `offsetAt` gives the UTC-to-local offset in seconds at a
given instant (used by `Local::now()`). -/
structure Tz where
  fromLocal : Int → LocalRes
  offsetAt : Int → Int

/-- The UTC timezone (also any fixed zero-offset zone): every naive local
time has a unique instant. -/
def tzUtc : Tz := ⟨fun n => LocalRes.single n, fun _ => 0⟩

/-- Ambient state read by `Local::now()`: the current instant and the local
timezone. -/
structure SysEnv where
  utcNow : Int
  tz : Tz

/-- Local calendar date of the current instant: embedding of
`Local::now().date_naive()` in `determine_backup_months`. -/
def localToday (env : SysEnv) : Date :=
  civilFromDays ((env.utcNow + env.tz.offsetAt env.utcNow) / 86400)

/-! ## backup_logic.rs -/

/-- Embedding of `BackupMode` from `src/backup_logic.rs`. -/
inductive BackupMode where
  | previousMonth
  | currentMonth
  | dynamic
deriving DecidableEq, Repr

/-- Embedding of `BackupMonth` from `src/backup_logic.rs`. -/
structure BackupMonth where
  year : Int
  month : Nat
deriving DecidableEq, Repr

/-- The derived `Ord` of `BackupMonth`: lexicographic on (year, month). -/
def bmLe (a b : BackupMonth) : Bool :=
  decide (a.year < b.year) || (decide (a.year = b.year) && decide (a.month ≤ b.month))

/-- Strict lexicographic order on backup months (statement form). -/
def bmLt (a b : BackupMonth) : Prop :=
  a.year < b.year ∨ (a.year = b.year ∧ a.month < b.month)

instance (a b : BackupMonth) : Decidable (bmLt a b) := by
  unfold bmLt; infer_instance

def insertMonth (a : BackupMonth) : List BackupMonth → List BackupMonth
  | [] => [a]
  | b :: rest => if bmLe a b then a :: b :: rest else b :: insertMonth a rest

/-- Sorting by the derived `Ord` (extensionally `Vec::sort`, a stable sort;
the function is only ever applied to lists of length at most two). -/
def sortMonths (l : List BackupMonth) : List BackupMonth := l.foldr insertMonth []

/-- Embedding of `determine_backup_months` from `src/backup_logic.rs`.
The source reads `today` from `Local::now().date_naive()`; that ambient read
is made an explicit `today` parameter (see `determine_backup_months_sys`).
The two `unwrap`s of the source (`from_ymd_opt(y, m, 1)` and `pred_opt`)
succeed for every actual `NaiveDate`, so the embedding is total. -/
def determine_backup_months (mode : BackupMode) (today : Date) : List BackupMonth :=
  let currentMonth : BackupMonth := ⟨today.year, today.month⟩
  let firstDayOfCurrentMonth : Date := ⟨today.year, today.month, 1⟩
  let lastDayOfPreviousMonth : Date := predDate firstDayOfCurrentMonth
  let previousMonth : BackupMonth :=
    ⟨lastDayOfPreviousMonth.year, lastDayOfPreviousMonth.month⟩
  let result : List BackupMonth :=
    match mode with
    | .previousMonth => [previousMonth]
    | .currentMonth => [currentMonth]
    | .dynamic =>
      let daysDiff : Int := daysFromCivilD today - daysFromCivilD lastDayOfPreviousMonth
      if 0 ≤ daysDiff ∧ daysDiff ≤ 7 then [previousMonth, currentMonth]
      else [currentMonth]
  sortMonths result

/-- `determine_backup_months` as the source has it, reading the clock from
ambient state. -/
def determine_backup_months_sys (mode : BackupMode) (env : SysEnv) : List BackupMonth :=
  determine_backup_months mode (localToday env)

/-! ## file_scanner.rs -/

/-- Embedding of chrono `NaiveDate::from_ymd_opt`. -/
def from_ymd_opt (y : Int) (m d : Nat) : Option Date :=
  if 1 ≤ m ∧ m ≤ 12 ∧ 1 ≤ d ∧ d ≤ daysInMonth y m then some ⟨y, m, d⟩ else none

/-- Local midnight of the 1st of the target month (the `start_naive` of
`get_month_range_utc`). -/
def monthStartDate (month : BackupMonth) : Date := ⟨month.year, month.month, 1⟩

/-- Local midnight of the 1st of the following month, December rolling into
the next year (the `end_naive` of `get_month_range_utc`). -/
def monthEndDate (month : BackupMonth) : Date :=
  if month.month = 12 then ⟨month.year + 1, 1, 1⟩ else ⟨month.year, month.month + 1, 1⟩

/-- Embedding of `get_month_range_utc` from `src/file_scanner.rs`: the naive
dates are built with `from_ymd_opt(..).unwrap()` and converted with
`Local.from_local_datetime(..).unwrap()`; a `none` result models a panic of
either `unwrap` (invalid month, or a nonexistent/ambiguous local midnight). -/
def get_month_range_utc (tz : Tz) (month : BackupMonth) : Option (Int × Int) :=
  match from_ymd_opt month.year month.month 1 with
  | none => none
  | some startD =>
    match (if month.month = 12 then from_ymd_opt (month.year + 1) 1 1
           else from_ymd_opt month.year (month.month + 1) 1) with
    | none => none
    | some endD =>
      match tz.fromLocal (naiveMidnight startD), tz.fromLocal (naiveMidnight endD) with
      | .single s, .single e => some (s, e)
      | _, _ => none

/-- One item yielded by the `WalkDir` iterator: either a walk error (an
unreadable entry, including failure to read the root), or an entry with its
path, its file-type test, and the fallible result of `entry.metadata()`
whose payload is the fallible result of `metadata.modified()` as a UTC
instant. -/
inductive WalkItem where
  | walkErr : Nat → WalkItem
  | entry : List Char → Bool → Except Nat (Except Nat Int) → WalkItem
deriving Repr

/-- The loop of `find_files_to_backup`: `filter_map(|e| e.ok())` drops walk
errors; `entry.metadata()?` and `metadata.modified()?` propagate; a regular
file is kept iff `modified > cutoff && modified >= start && modified < end`. -/
def scanFiles (cutoff ms me : Int) : List WalkItem → Except Nat (List (List Char))
  | [] => .ok []
  | .walkErr _ :: rest => scanFiles cutoff ms me rest
  | .entry p isFile md :: rest =>
    if isFile then
      match md with
      | .error e => .error e
      | .ok mres =>
        match mres with
        | .error e => .error e
        | .ok t =>
          if cutoff < t ∧ ms ≤ t ∧ t < me then
            match scanFiles cutoff ms me rest with
            | .error e => .error e
            | .ok l => .ok (p :: l)
          else scanFiles cutoff ms me rest
    else scanFiles cutoff ms me rest

/-- Embedding of `find_files_to_backup` from `src/file_scanner.rs`. `none`
models a panic inside `get_month_range_utc`. -/
def find_files_to_backup (tz : Tz) (walk : List WalkItem) (last_backup_time : Int)
    (month_to_scan : BackupMonth) : Option (Except Nat (List (List Char))) :=
  (get_month_range_utc tz month_to_scan).map
    (fun r => scanFiles last_backup_time r.1 r.2 walk)

/-- Spec-side selector: the file of a walk item that the File Selector
contract says must be included. -/
def selectItem (cutoff ms me : Int) : WalkItem → Option (List Char)
  | .entry p true (.ok (.ok t)) =>
    if cutoff < t ∧ ms ≤ t ∧ t < me then some p else none
  | _ => none

/-! ## cache.rs -/

/-- Embedding of `CacheRecord` from `src/cache.rs`. -/
structure CacheRecord where
  start_time : Int
  end_time : Int
  backup_info : List Char
deriving DecidableEq, Repr

/-- One step of `iter().max_by_key(|r| r.end_time)`: keep the later element
on ties, per the Rust iterator contract. -/
def maxStep (acc : Option CacheRecord) (r : CacheRecord) : Option CacheRecord :=
  match acc with
  | none => some r
  | some best => if best.end_time ≤ r.end_time then some r else some best

/-- Embedding of `records.iter().max_by_key(|r| r.end_time)`. -/
def maxByEndTime (records : List CacheRecord) : Option CacheRecord :=
  records.foldl maxStep none

/-- Embedding of `get_last_backup_time` from `src/cache.rs`. -/
def get_last_backup_time (records : List CacheRecord) : Int :=
  match maxByEndTime records with
  | none => utcTimestamp 1970 1 1 0 0 0
  | some r => r.end_time

/-! ## main.rs -/

/-- Observable outcome of processing one month in `main`'s loop: the result
of `find_files_to_backup` and, when it is attempted, of `create_archive`. -/
structure MonthOutcome where
  scan : Except Nat (List (List Char))
  archive : Except Nat (List Char)
deriving Repr

/-- Body of `main`'s per-month loop, restricted to its effect on the
`archives_created_this_run` flag: the flag is set exactly when a scan
succeeded with a nonempty file list and the archive was created; errors only
skip the month. -/
def monthLoopStep (flag : Bool) (oc : MonthOutcome) : Bool :=
  match oc.scan with
  | .ok files =>
    if files.isEmpty then flag
    else
      match oc.archive with
      | .ok _ => true
      | .error _ => flag
  | .error _ => flag

/-- The `archives_created_this_run` flag after `main`'s per-month loop. -/
def archivesCreatedRun (ocs : List MonthOutcome) : Bool :=
  ocs.foldl monthLoopStep false

/-- The list of cache-file rewrites `main` performs, in order (there is a
single `write_cache_records` call site, reached after the loop, guarded by
the flag; the record pushed is built from the run's start/end instants and
month list). -/
def mainCacheWrites (records : List CacheRecord) (newRec : CacheRecord)
    (ocs : List MonthOutcome) : List (List CacheRecord) :=
  if archivesCreatedRun ocs then [records ++ [newRec]] else []

/-! ## archiver.rs / cleaner.rs: filename format and recognition -/

/-- Decimal digit character. -/
def dc (n : Nat) : Char :=
  match n with
  | 0 => '0'
  | 1 => '1'
  | 2 => '2'
  | 3 => '3'
  | 4 => '4'
  | 5 => '5'
  | 6 => '6'
  | 7 => '7'
  | 8 => '8'
  | 9 => '9'
  | _ => '0'

/-- Numeric value of a digit character. -/
def dval (c : Char) : Nat := c.toNat - 48

/-- Decimal digits of a natural number (fallback for out-of-width values). -/
def natDec (n : Nat) : List Char := Nat.toDigits 10 n

/-- Rust `{:02}` formatting of a natural number. -/
def pad2 (n : Nat) : List Char :=
  if n < 100 then [dc (n / 10), dc (n % 10)] else natDec n

/-- Zero-padding to width 3 (used for the sign-bearing branch of `{:04}`). -/
def pad3 (n : Nat) : List Char :=
  if n < 1000 then [dc (n / 100), dc (n / 10 % 10), dc (n % 10)] else natDec n

/-- Zero-padding to width 4. -/
def pad4 (n : Nat) : List Char :=
  if n < 10000 then [dc (n / 1000), dc (n / 100 % 10), dc (n / 10 % 10), dc (n % 10)]
  else natDec n

/-- Rust `{:04}` formatting of an integer (width includes the sign). -/
def fmt04 (n : Int) : List Char :=
  if n < 0 then '-' :: pad3 (-n).toNat else pad4 n.toNat

/-- chrono `%Y` formatting: zero-padded to 4 digits inside 0..=9999, printed
with an explicit sign outside that range. -/
def fmtY (n : Int) : List Char :=
  if 0 ≤ n ∧ n ≤ 9999 then pad4 n.toNat
  else if n < 0 then '-' :: natDec (-n).toNat
  else '+' :: natDec n.toNat

/-- Local wall-clock date-time at second precision (chrono
`Local::now()` and parsed `NaiveDateTime` values). -/
structure LocalDateTime where
  year : Int
  month : Nat
  day : Nat
  hour : Nat
  minute : Nat
  second : Nat
deriving DecidableEq, Repr

/-- Date-times chrono can produce and parse. -/
def validLDT (t : LocalDateTime) : Prop :=
  1 ≤ t.month ∧ t.month ≤ 12 ∧ 1 ≤ t.day ∧ t.day ≤ daysInMonth t.year t.month
    ∧ t.hour < 24 ∧ t.minute < 60 ∧ t.second < 60

instance (t : LocalDateTime) : Decidable (validLDT t) := by
  unfold validLDT; infer_instance

/-- Position of a local date-time on the naive local timeline, in seconds. -/
def naiveSecondsLDT (t : LocalDateTime) : Int :=
  86400 * daysFromCivil t.year t.month t.day
    + 3600 * (t.hour : Int) + 60 * (t.minute : Int) + (t.second : Int)

/-- chrono `format("%Y%m%d%H%M%S")` of a local date-time. -/
def formatTimestamp (t : LocalDateTime) : List Char :=
  fmtY t.year ++ pad2 t.month ++ pad2 t.day
    ++ pad2 t.hour ++ pad2 t.minute ++ pad2 t.second

/-- Embedding of the archive-name line of `create_archive`
(`src/archiver.rs`): `format!("{:04}-{:02}_backup_{}.zip", year, month, ts)`
with `ts` the `%Y%m%d%H%M%S` rendering of the creation wall-clock time. -/
def zipFileName (year : Int) (month : Nat) (t : LocalDateTime) : List Char :=
  fmt04 year ++ ('-' :: (pad2 month
    ++ ('_' :: 'b' :: 'a' :: 'c' :: 'k' :: 'u' :: 'p' :: '_'
        :: (formatTimestamp t ++ ('.' :: 'z' :: 'i' :: 'p' :: [])))))

/-- Tail of the pruner's regular expression: `(\d{14})\.zip$`, returning the
captured timestamp digits. -/
def captureTs : List Char → Option (List Char)
  | c1 :: c2 :: c3 :: c4 :: c5 :: c6 :: c7 :: c8 :: c9 :: c10 :: c11 :: c12 :: c13
      :: c14 :: z1 :: z2 :: z3 :: z4 :: [] =>
    if z1 = '.' ∧ z2 = 'z' ∧ z3 = 'i' ∧ z4 = 'p'
        ∧ c1.isDigit ∧ c2.isDigit ∧ c3.isDigit ∧ c4.isDigit ∧ c5.isDigit ∧ c6.isDigit
        ∧ c7.isDigit ∧ c8.isDigit ∧ c9.isDigit ∧ c10.isDigit ∧ c11.isDigit
        ∧ c12.isDigit ∧ c13.isDigit ∧ c14.isDigit
    then some [c1, c2, c3, c4, c5, c6, c7, c8, c9, c10, c11, c12, c13, c14]
    else none
  | _ => none

/-- The pruner's recognition pattern `^\d{4}-\d{2}_backup_(\d{14})\.zip$`
(`src/cleaner.rs`), returning the captured timestamp on a match. -/
def reMatch : List Char → Option (List Char)
  | y1 :: y2 :: y3 :: y4 :: h1 :: m1 :: m2 :: r1 :: r2 :: r3 :: r4 :: r5 :: r6 :: r7
      :: r8 :: rest =>
    if h1 = '-' ∧ r1 = '_' ∧ r2 = 'b' ∧ r3 = 'a' ∧ r4 = 'c' ∧ r5 = 'k' ∧ r6 = 'u'
        ∧ r7 = 'p' ∧ r8 = '_'
        ∧ y1.isDigit ∧ y2.isDigit ∧ y3.isDigit ∧ y4.isDigit ∧ m1.isDigit ∧ m2.isDigit
    then captureTs rest
    else none
  | _ => none

/-- chrono `NaiveDateTime::parse_from_str(ts, "%Y%m%d%H%M%S")` on a 14-digit
capture: fixed-width fields, validated as a calendar date-time.  `%S` accepts
00–60: chrono stores a parsed second 60 as the leap second, second 59 plus
10⁹ nanoseconds.  At the whole-second resolution of this embedding that
value maps to second 59 — the leap second lies strictly inside
[second 59, next minute), so its strict-order comparisons against
whole-second instants (the cleaner's deadline) coincide with second 59's. -/
def parseTimestamp : List Char → Option LocalDateTime
  | a1 :: a2 :: a3 :: a4 :: b1 :: b2 :: c1 :: c2 :: d1 :: d2 :: e1 :: e2 :: f1 :: f2
      :: [] =>
    if a1.isDigit ∧ a2.isDigit ∧ a3.isDigit ∧ a4.isDigit ∧ b1.isDigit ∧ b2.isDigit
        ∧ c1.isDigit ∧ c2.isDigit ∧ d1.isDigit ∧ d2.isDigit ∧ e1.isDigit ∧ e2.isDigit
        ∧ f1.isDigit ∧ f2.isDigit
    then
      let yv : Nat := ((dval a1 * 10 + dval a2) * 10 + dval a3) * 10 + dval a4
      let mov : Nat := dval b1 * 10 + dval b2
      let dv : Nat := dval c1 * 10 + dval c2
      let hv : Nat := dval d1 * 10 + dval d2
      let miv : Nat := dval e1 * 10 + dval e2
      let sv : Nat := dval f1 * 10 + dval f2
      if 1 ≤ mov ∧ mov ≤ 12 ∧ 1 ≤ dv ∧ dv ≤ daysInMonth (yv : Int) mov
          ∧ hv < 24 ∧ miv < 60 ∧ sv ≤ 60
      then some ⟨(yv : Int), mov, dv, hv, miv, if sv = 60 then 59 else sv⟩
      else none
    else none
  | _ => none

/-! ## cleaner.rs -/

/-- One item of `fs::read_dir(destination_path)`: a directory-entry error, or
a named entry with its `is_file` test. -/
inductive DirItem where
  | dirErr : Nat → DirItem
  | file : List Char → Bool → DirItem
deriving DecidableEq, Repr

/-- The loop of `cleanup_old_backups`: entry errors propagate (`entry?`);
regular files matching the pattern whose parsed timestamp converts to an
instant before the deadline are removed (the returned list is the removal
attempts, in order; individual removal failures are ignored by the source).
A `none` result models the `and_local_timezone(Local).unwrap()` panic. -/
def cleanupGo (tz : Tz) (deadline : Int) :
    List DirItem → Option (Except Nat (List (List Char)))
  | [] => some (.ok [])
  | .dirErr e :: _ => some (.error e)
  | .file name isFile :: rest =>
    if isFile then
      match reMatch name with
      | some ts =>
        match parseTimestamp ts with
        | some dt =>
          match tz.fromLocal (naiveSecondsLDT dt) with
          | .single t =>
            if t < deadline then
              match cleanupGo tz deadline rest with
              | some (.ok l) => some (.ok (name :: l))
              | other => other
            else cleanupGo tz deadline rest
          | _ => none
        | none => cleanupGo tz deadline rest
      | none => cleanupGo tz deadline rest
    else cleanupGo tz deadline rest

/-- Embedding of `cleanup_old_backups` from `src/cleaner.rs`: no-op when
`keep_months == 0`, otherwise deadline = now − `30 * keep_months` days. -/
def cleanup_old_backups (tz : Tz) (now : Int) (items : List DirItem)
    (keep_months : Nat) : Option (Except Nat (List (List Char))) :=
  if keep_months = 0 then some (.ok [])
  else cleanupGo tz (now - 86400 * (30 * (keep_months : Int))) items

/-! ## Calendar lemmas -/

lemma isLeap_iff (y : Int) :
    isLeap y = true ↔ (y % 4 = 0 ∧ (¬ y % 100 = 0 ∨ y % 400 = 0)) := by
  simp [isLeap]

lemma one_le_daysInMonth (y : Int) (m : Nat) (h1 : 1 ≤ m) (h2 : m ≤ 12) :
    1 ≤ daysInMonth y m := by
  interval_cases m <;> simp only [daysInMonth] <;> first | omega | (split <;> omega)

/-- Stepping the era/year-of-era day count back one year crosses one civil
year of 365 or 366 days. -/
lemma civ_year_step (y : Int) :
    y / 400 * 146097 + (y - y / 400 * 400) * 365
      + (y - y / 400 * 400) / 4 - (y - y / 400 * 400) / 100
    = (y - 1) / 400 * 146097 + ((y - 1) - (y - 1) / 400 * 400) * 365
      + ((y - 1) - (y - 1) / 400 * 400) / 4
      - ((y - 1) - (y - 1) / 400 * 400) / 100
      + (if isLeap y then 366 else 365) := by
  by_cases h0 : y % 400 = 0
  · have e1 : (y - 1) / 400 = y / 400 - 1 := by omega
    have a1 : y - y / 400 * 400 = 0 := by omega
    have hL : isLeap y = true := by rw [isLeap_iff]; omega
    rw [hL, e1, a1]
    have a2 : y - 1 - (y / 400 - 1) * 400 = 399 := by omega
    rw [a2]
    norm_num
    omega
  · have e1 : (y - 1) / 400 = y / 400 := by omega
    rw [e1]
    have a2 : y - 1 - y / 400 * 400 = (y - y / 400 * 400) - 1 := by omega
    rw [a2]
    rcases hL : isLeap y with _ | _
    · have hnl : ¬ (y % 4 = 0 ∧ (¬ y % 100 = 0 ∨ y % 400 = 0)) := by
        rw [← isLeap_iff, hL]; simp
      rw [if_neg (by simp [hL])]
      omega
    · have hl : y % 4 = 0 ∧ (¬ y % 100 = 0 ∨ y % 400 = 0) := (isLeap_iff y).mp hL
      rw [if_pos (by simp [hL])]
      omega

/-- The day before the 1st of a month is the last day of the previous
month: their day numbers differ by one. -/
lemma dfc_first_sub_prev (y : Int) (m : Nat) (h1 : 1 ≤ m) (h2 : m ≤ 12) :
    daysFromCivil y m 1 = daysFromCivilD (predDate ⟨y, m, 1⟩) + 1 := by
  have hstep := civ_year_step y
  interval_cases m <;>
    simp only [predDate, daysFromCivilD, daysInMonth, daysFromCivil] <;>
    norm_num <;>
    rcases hL : isLeap y with _ | _ <;>
      simp only [hL, if_true, if_false, Bool.false_eq_true] at hstep ⊢ <;> omega

lemma dfc_day_linear (y : Int) (m d : Nat) :
    daysFromCivil y m d = daysFromCivil y m 1 + (d : Int) - 1 := by
  simp only [daysFromCivil]
  push_cast
  ring

/-- The Dynamic-mode gap (`today − last_day_of_previous_month` in days)
equals today's day-of-month. -/
lemma gap_eq_day (today : Date) (hv : validDate today) :
    daysFromCivilD today - daysFromCivilD (predDate ⟨today.year, today.month, 1⟩)
      = (today.day : Int) := by
  obtain ⟨h1, h2, _, _⟩ := hv
  have hb := dfc_first_sub_prev today.year today.month h1 h2
  have hl := dfc_day_linear today.year today.month today.day
  simp only [daysFromCivilD] at *
  omega

lemma predDate_first (y : Int) (m : Nat) (h1 : 1 ≤ m) :
    predDate ⟨y, m, 1⟩ =
      if m = 1 then (⟨y - 1, 12, 31⟩ : Date) else ⟨y, m - 1, daysInMonth y (m - 1)⟩ := by
  by_cases hm : m = 1
  · subst hm; simp [predDate]
  · have hlt : 1 < m := by omega
    simp [predDate, hlt, hm]

/-! ## Month-selector lemmas -/

lemma sortMonths_single (a : BackupMonth) : sortMonths [a] = [a] := rfl

lemma sortMonths_pair (a b : BackupMonth) (h : bmLe a b = true) :
    sortMonths [a, b] = [a, b] := by
  simp [sortMonths, insertMonth, h]

/-- The previous month is strictly below the current month in the derived
`BackupMonth` order. -/
lemma prev_bmLt_cur (y : Int) (m : Nat) (h1 : 1 ≤ m) :
    bmLt ⟨(predDate ⟨y, m, 1⟩).year, (predDate ⟨y, m, 1⟩).month⟩ ⟨y, m⟩ := by
  rw [predDate_first y m h1]
  by_cases hm : m = 1
  · subst hm
    rw [if_pos rfl]
    exact Or.inl (show y - 1 < y by omega)
  · simp only [hm, if_false]
    exact Or.inr ⟨rfl, show m - 1 < m by omega⟩

lemma bmLe_of_bmLt (a b : BackupMonth) (h : bmLt a b) : bmLe a b = true := by
  rcases h with h | ⟨h, h2⟩
  · simp [bmLe, h]
  · simp [bmLe, h]
    omega

/-- Explicit form of the Dynamic branch: both months for day-of-month ≤ 7,
only the current month otherwise. -/
lemma determine_dynamic_cases (today : Date) (hv : validDate today) :
    (today.day ≤ 7 →
      determine_backup_months .dynamic today =
        [⟨(predDate ⟨today.year, today.month, 1⟩).year,
          (predDate ⟨today.year, today.month, 1⟩).month⟩,
         ⟨today.year, today.month⟩])
    ∧ (7 < today.day →
      determine_backup_months .dynamic today = [⟨today.year, today.month⟩]) := by
  have hgap := gap_eq_day today hv
  have hlt := prev_bmLt_cur today.year today.month hv.1
  constructor
  · intro hd
    have hcond : 0 ≤ daysFromCivilD today
        - daysFromCivilD (predDate ⟨today.year, today.month, 1⟩)
        ∧ daysFromCivilD today
        - daysFromCivilD (predDate ⟨today.year, today.month, 1⟩) ≤ 7 := by
      rw [hgap]; omega
    simp only [determine_backup_months, if_pos hcond]
    exact sortMonths_pair _ _ (bmLe_of_bmLt _ _ hlt)
  · intro hd
    have hcond : ¬ (0 ≤ daysFromCivilD today
        - daysFromCivilD (predDate ⟨today.year, today.month, 1⟩)
        ∧ daysFromCivilD today
        - daysFromCivilD (predDate ⟨today.year, today.month, 1⟩) ≤ 7) := by
      rw [hgap]; omega
    simp only [determine_backup_months, if_neg hcond]
    rfl

/-! ## Claims C4, C8, C9: month selection -/

/-- Claim C4 (amended): in Dynamic mode the gap from the last day of the
previous month to today equals today's day-of-month, so both months (sorted
ascending) are returned exactly when the day-of-month is at most 7 — i.e.
when today is within 0–6 days after the start of the current month — and
only the current month otherwise. -/
theorem claim_C4_dynamic_selection (today : Date) (hv : validDate today) :
    (daysFromCivilD today - daysFromCivilD (predDate ⟨today.year, today.month, 1⟩)
        = (today.day : Int))
    ∧ (today.day ≤ 7 →
        determine_backup_months .dynamic today =
          [⟨(predDate ⟨today.year, today.month, 1⟩).year,
            (predDate ⟨today.year, today.month, 1⟩).month⟩,
           ⟨today.year, today.month⟩])
    ∧ (7 < today.day →
        determine_backup_months .dynamic today = [⟨today.year, today.month⟩]) :=
  ⟨gap_eq_day today hv, (determine_dynamic_cases today hv).1,
    (determine_dynamic_cases today hv).2⟩

/-- Claim C4, counterexample to the claimed equivalence: 2025-05-08 is
exactly 7 days after the start of its month (inside the claimed 0–7-day
window), yet Dynamic mode returns only the current month, because the code's
gap (= day-of-month) is 8. -/
theorem claim_C4_counterexample :
    (daysFromCivilD ⟨2025, 5, 8⟩ - daysFromCivilD ⟨2025, 5, 1⟩ = 7)
    ∧ determine_backup_months BackupMode.dynamic ⟨2025, 5, 8⟩ = [⟨2025, 5⟩] :=
  ⟨by decide, by decide⟩

/-- Claim C4, witness: on 2025-05-07 the hypotheses of
`claim_C4_dynamic_selection` hold and both months are returned. -/
theorem claim_C4_witness :
    validDate ⟨2025, 5, 7⟩
    ∧ determine_backup_months BackupMode.dynamic ⟨2025, 5, 7⟩ = [⟨2025, 4⟩, ⟨2025, 5⟩] :=
  ⟨by decide, by
    have h := (claim_C4_dynamic_selection ⟨2025, 5, 7⟩ (by decide)).2.1 (by decide)
    rw [h]; decide⟩

/-- Claim C8: month selection is a pure function of the mode and the local
calendar date: it reads ambient state only through `localToday`, so any two
environments (instant and timezone) that agree on the local date produce the
same month list, and the system-level function factors through the
`today`-injected `determine_backup_months`. -/
theorem claim_C8_month_selection_pure (mode : BackupMode) (e1 e2 : SysEnv)
    (h : localToday e1 = localToday e2) :
    determine_backup_months_sys mode e1 = determine_backup_months_sys mode e2
    ∧ determine_backup_months_sys mode e1
        = determine_backup_months mode (localToday e1) := by
  constructor
  · unfold determine_backup_months_sys
    rw [h]
  · rfl

/-- Claim C8, witness: two different instants of 1970-01-01 UTC yield the
same month list. -/
theorem claim_C8_witness :
    localToday ⟨0, tzUtc⟩ = localToday ⟨3600, tzUtc⟩
    ∧ (determine_backup_months_sys BackupMode.dynamic ⟨0, tzUtc⟩
          = determine_backup_months_sys BackupMode.dynamic ⟨3600, tzUtc⟩
       ∧ determine_backup_months_sys BackupMode.dynamic ⟨0, tzUtc⟩
          = determine_backup_months BackupMode.dynamic (localToday ⟨0, tzUtc⟩)) :=
  ⟨by decide, claim_C8_month_selection_pure BackupMode.dynamic _ _ (by decide)⟩

/-- Claim C9: for every mode and valid date, the returned month list is
non-empty (so the caller's empty-list early exit is unreachable) and
strictly ascending (hence duplicate-free); PreviousMonth and CurrentMonth
yield exactly one month, Dynamic yields one or two. -/
theorem claim_C9_month_list_wellformed (mode : BackupMode) (today : Date)
    (hv : validDate today) :
    determine_backup_months mode today ≠ []
    ∧ List.Chain' bmLt (determine_backup_months mode today)
    ∧ ((mode = .previousMonth ∨ mode = .currentMonth) →
        (determine_backup_months mode today).length = 1)
    ∧ (mode = .dynamic →
        (determine_backup_months mode today).length = 1
        ∨ (determine_backup_months mode today).length = 2) := by
  cases mode
  case previousMonth =>
    refine ⟨by simp [determine_backup_months, sortMonths, insertMonth], ?_,
      fun _ => rfl, by simp⟩
    simp [determine_backup_months, sortMonths, insertMonth]
  case currentMonth =>
    refine ⟨by simp [determine_backup_months, sortMonths, insertMonth], ?_,
      fun _ => rfl, by simp⟩
    simp [determine_backup_months, sortMonths, insertMonth]
  case dynamic =>
    by_cases hd : today.day ≤ 7
    · have h := (determine_dynamic_cases today hv).1 hd
      rw [h]
      refine ⟨by simp, ?_, by simp, fun _ => Or.inr rfl⟩
      simp [List.chain'_cons, prev_bmLt_cur today.year today.month hv.1]
    · have h := (determine_dynamic_cases today hv).2 (by omega)
      rw [h]
      exact ⟨by simp, by simp, by simp, fun _ => Or.inl rfl⟩

/-- Claim C9, witness: instantiation at Dynamic mode on 2025-05-07. -/
theorem claim_C9_witness :
    validDate ⟨2025, 5, 7⟩
    ∧ determine_backup_months BackupMode.dynamic ⟨2025, 5, 7⟩ ≠ [] :=
  ⟨by decide,
    (claim_C9_month_list_wellformed BackupMode.dynamic ⟨2025, 5, 7⟩ (by decide)).1⟩

/-! ## File-scanner lemmas -/

lemma from_ymd_first_ok (y : Int) (m : Nat) (h1 : 1 ≤ m) (h2 : m ≤ 12) :
    from_ymd_opt y m 1 = some ⟨y, m, 1⟩ := by
  unfold from_ymd_opt
  rw [if_pos ⟨h1, h2, le_refl 1, one_le_daysInMonth y m h1 h2⟩]

/-- With a valid target month, `get_month_range_utc` reduces to the timezone
conversions of the two local midnights. -/
lemma get_month_range_eq (tz : Tz) (mo : BackupMonth)
    (h1 : 1 ≤ mo.month) (h2 : mo.month ≤ 12) :
    get_month_range_utc tz mo =
      match tz.fromLocal (naiveMidnight (monthStartDate mo)),
            tz.fromLocal (naiveMidnight (monthEndDate mo)) with
      | .single s, .single e => some (s, e)
      | _, _ => none := by
  unfold get_month_range_utc monthStartDate monthEndDate
  rw [from_ymd_first_ok mo.year mo.month h1 h2]
  by_cases h12 : mo.month = 12
  · rw [if_pos h12, if_pos h12, from_ymd_first_ok (mo.year + 1) 1 (by omega) (by omega)]
  · rw [if_neg h12, if_neg h12,
      from_ymd_first_ok mo.year (mo.month + 1) (by omega) (by omega)]

lemma selectItem_eq_some (cutoff ms me : Int) (it : WalkItem) (p : List Char) :
    selectItem cutoff ms me it = some p ↔
      ∃ t, it = WalkItem.entry p true (Except.ok (Except.ok t))
        ∧ (cutoff < t ∧ ms ≤ t ∧ t < me) := by
  cases it with
  | walkErr e => simp [selectItem]
  | entry q b md =>
    cases md with
    | error e => cases b <;> simp [selectItem]
    | ok mres =>
      cases mres with
      | error e => cases b <;> simp [selectItem]
      | ok t =>
        cases b with
        | false => simp [selectItem]
        | true =>
          by_cases hc : cutoff < t ∧ ms ≤ t ∧ t < me
          · simp only [selectItem, if_pos hc]
            constructor
            · rintro h
              cases h
              exact ⟨t, rfl, hc⟩
            · rintro ⟨t2, heq, hc2⟩
              cases heq
              rfl
          · simp only [selectItem, if_neg hc]
            constructor
            · rintro ⟨⟩
            · rintro ⟨t2, heq, hc2⟩
              cases heq
              exact absurd hc2 hc

lemma scanFiles_ok_eq (cutoff ms me : Int) (walk : List WalkItem) :
    ∀ files, scanFiles cutoff ms me walk = Except.ok files →
      files = walk.filterMap (selectItem cutoff ms me) := by
  induction walk with
  | nil =>
    intro files h
    simp only [scanFiles] at h
    cases h
    rfl
  | cons hd tl ih =>
    intro files h
    cases hd with
    | walkErr e =>
      simp only [scanFiles] at h
      simpa [List.filterMap_cons, selectItem] using ih files h
    | entry p isF md =>
      cases isF with
      | false =>
        simp only [scanFiles, Bool.false_eq_true, if_false] at h
        simpa [List.filterMap_cons, selectItem] using ih files h
      | true =>
        cases md with
        | error e =>
          simp only [scanFiles, if_true] at h
          cases h
        | ok mres =>
          cases mres with
          | error e =>
            simp only [scanFiles, if_true] at h
            cases h
          | ok t =>
            by_cases hc : cutoff < t ∧ ms ≤ t ∧ t < me
            · simp only [scanFiles, if_true, if_pos hc] at h
              cases heq : scanFiles cutoff ms me tl with
              | error e => rw [heq] at h; cases h
              | ok l =>
                rw [heq] at h
                cases h
                simp only [List.filterMap_cons, selectItem, if_pos hc]
                rw [ih l heq]
            · simp only [scanFiles, if_true, if_neg hc] at h
              simp only [List.filterMap_cons, selectItem, if_neg hc]
              exact ih files h

lemma scanFiles_error_iff (cutoff ms me : Int) (walk : List WalkItem) :
    (∃ er, scanFiles cutoff ms me walk = Except.error er) ↔
      ∃ p md, WalkItem.entry p true md ∈ walk
        ∧ ((∃ e2, md = Except.error e2) ∨ ∃ e2, md = Except.ok (Except.error e2)) := by
  induction walk with
  | nil => simp [scanFiles]
  | cons hd tl ih =>
    cases hd with
    | walkErr e =>
      simp only [scanFiles]
      rw [ih]
      simp
    | entry p isF md =>
      cases isF with
      | false =>
        simp only [scanFiles, Bool.false_eq_true, if_false]
        rw [ih]
        simp
      | true =>
        cases md with
        | error e =>
          simp only [scanFiles, if_true]
          constructor
          · intro _
            exact ⟨p, Except.error e, List.mem_cons_self _ _, Or.inl ⟨e, rfl⟩⟩
          · intro _
            exact ⟨e, rfl⟩
        | ok mres =>
          cases mres with
          | error e =>
            simp only [scanFiles, if_true]
            constructor
            · intro _
              exact ⟨p, Except.ok (Except.error e), List.mem_cons_self _ _,
                Or.inr ⟨e, rfl⟩⟩
            · intro _
              exact ⟨e, rfl⟩
          | ok t =>
            have hhead : ∀ q md2, WalkItem.entry q true md2
                  = WalkItem.entry p true (Except.ok (Except.ok t)) →
                ¬ ((∃ e2, md2 = Except.error e2)
                    ∨ ∃ e2, md2 = Except.ok (Except.error e2)) := by
              intro q md2 heq
              cases heq
              rintro (⟨e2, h⟩ | ⟨e2, h⟩) <;> cases h
            by_cases hc : cutoff < t ∧ ms ≤ t ∧ t < me
            · simp only [scanFiles, if_true, if_pos hc]
              cases heq : scanFiles cutoff ms me tl with
              | error e =>
                constructor
                · intro _
                  have : ∃ er, scanFiles cutoff ms me tl = Except.error er := ⟨e, heq⟩
                  obtain ⟨q, md2, hmem, hbad⟩ := ih.mp this
                  exact ⟨q, md2, List.mem_cons_of_mem _ hmem, hbad⟩
                · intro _
                  exact ⟨e, rfl⟩
              | ok l =>
                constructor
                · rintro ⟨er, her⟩
                  cases her
                · rintro ⟨q, md2, hmem, hbad⟩
                  rcases List.mem_cons.mp hmem with heq2 | hmem2
                  · exact absurd hbad (hhead q md2 heq2)
                  · obtain ⟨er, her⟩ := ih.mpr ⟨q, md2, hmem2, hbad⟩
                    rw [her] at heq
                    cases heq
            · simp only [scanFiles, if_true, if_neg hc]
              rw [ih]
              constructor
              · rintro ⟨q, md2, hmem, hbad⟩
                exact ⟨q, md2, List.mem_cons_of_mem _ hmem, hbad⟩
              · rintro ⟨q, md2, hmem, hbad⟩
                rcases List.mem_cons.mp hmem with heq2 | hmem2
                · exact absurd hbad (hhead q md2 heq2)
                · exact ⟨q, md2, hmem2, hbad⟩

/-! ## Claims C1, C2, C10: the file scanner -/

/-- Claim C1: when the target month is valid, its half-open UTC window
[s, e) comes from the unique UTC interpretations of local midnight of the
1st of the month and of the 1st of the following month (December rolling
over), and a successful scan returns exactly the walked regular files whose
modification instant t satisfies t > cutoff and s ≤ t < e — so files at
exactly the cutoff or exactly at the month end are excluded. -/
theorem claim_C1_file_selection (tz : Tz) (mo : BackupMonth) (cutoff s e : Int)
    (walk : List WalkItem) (files : List (List Char))
    (h1 : 1 ≤ mo.month) (h2 : mo.month ≤ 12)
    (hs : tz.fromLocal (naiveMidnight (monthStartDate mo)) = LocalRes.single s)
    (he : tz.fromLocal (naiveMidnight (monthEndDate mo)) = LocalRes.single e)
    (hok : find_files_to_backup tz walk cutoff mo = some (Except.ok files)) :
    ∀ p, p ∈ files ↔
      ∃ t, WalkItem.entry p true (Except.ok (Except.ok t)) ∈ walk
        ∧ cutoff < t ∧ s ≤ t ∧ t < e := by
  have hr : get_month_range_utc tz mo = some (s, e) := by
    rw [get_month_range_eq tz mo h1 h2, hs, he]
  unfold find_files_to_backup at hok
  rw [hr] at hok
  simp only [Option.map_some', Option.some.injEq] at hok
  have hfe := scanFiles_ok_eq cutoff s e walk files hok
  intro p
  rw [hfe, List.mem_filterMap]
  constructor
  · rintro ⟨it, hmem, hsel⟩
    obtain ⟨t, heq, hc⟩ := (selectItem_eq_some cutoff s e it p).mp hsel
    subst heq
    exact ⟨t, hmem, hc⟩
  · rintro ⟨t, hmem, hc⟩
    exact ⟨WalkItem.entry p true (Except.ok (Except.ok t)), hmem,
      (selectItem_eq_some cutoff s e _ p).mpr ⟨t, rfl, hc⟩⟩

/-- Claim C1, witness: May 2025 under the UTC timezone, with one file in
the window, one at the cutoff, one at the month end, and a directory. -/
theorem claim_C1_witness :
    ((1:Nat) ≤ 5 ∧ (5:Nat) ≤ 12
      ∧ tzUtc.fromLocal (naiveMidnight (monthStartDate ⟨2025, 5⟩))
          = LocalRes.single 1746057600
      ∧ tzUtc.fromLocal (naiveMidnight (monthEndDate ⟨2025, 5⟩))
          = LocalRes.single 1748736000
      ∧ find_files_to_backup tzUtc
          [WalkItem.entry ['a'] true (Except.ok (Except.ok 1746057601)),
           WalkItem.entry ['b'] true (Except.ok (Except.ok 1746057600)),
           WalkItem.entry ['c'] true (Except.ok (Except.ok 1748736000)),
           WalkItem.entry ['d'] false (Except.ok (Except.ok 1746057601))]
          1746057600 ⟨2025, 5⟩ = some (Except.ok [['a']]))
    ∧ (['a'] ∈ [['a']] ↔
        ∃ t, WalkItem.entry ['a'] true (Except.ok (Except.ok t)) ∈
            [WalkItem.entry ['a'] true (Except.ok (Except.ok 1746057601)),
             WalkItem.entry ['b'] true (Except.ok (Except.ok 1746057600)),
             WalkItem.entry ['c'] true (Except.ok (Except.ok 1748736000)),
             WalkItem.entry ['d'] false (Except.ok (Except.ok 1746057601))]
          ∧ 1746057600 < t ∧ 1746057600 ≤ t ∧ t < 1748736000) :=
  ⟨⟨by decide, by decide, by decide, by decide, by rfl⟩,
    claim_C1_file_selection tzUtc ⟨2025, 5⟩ 1746057600 1746057600 1748736000
      _ _ (by decide) (by decide) (by decide) (by decide) (by rfl) ['a']⟩

/-- Claim C2, counterexample: a directory-walk error — here, an unreadable
root, the only walk item being an error — does not make
`find_files_to_backup` fail: `filter_map(|e| e.ok())` drops it and the scan
returns an empty Ok list instead of an error. -/
theorem claim_C2_counterexample :
    find_files_to_backup tzUtc [WalkItem.walkErr 7] 0 ⟨2025, 5⟩
      = some (Except.ok []) := by
  rfl

/-- Claim C2 (amended): the month scan fails exactly when reading the
metadata (or the modified time) of a successfully walked regular-file entry
fails; errors yielded by the directory walk itself — including failure to
read the root — are silently skipped and never surface as an error. -/
theorem claim_C2_scan_error_characterization (tz : Tz) (mo : BackupMonth)
    (cutoff s e : Int) (walk : List WalkItem)
    (hr : get_month_range_utc tz mo = some (s, e)) :
    (∃ er, find_files_to_backup tz walk cutoff mo = some (Except.error er))
      ↔ ∃ p md, WalkItem.entry p true md ∈ walk
          ∧ ((∃ e2, md = Except.error e2)
              ∨ ∃ e2, md = Except.ok (Except.error e2)) := by
  unfold find_files_to_backup
  rw [hr]
  simp only [Option.map_some', Option.some.injEq]
  exact scanFiles_error_iff cutoff s e walk

/-- Claim C2, witness: a file entry whose metadata read fails makes the
whole scan fail. -/
theorem claim_C2_witness :
    get_month_range_utc tzUtc ⟨2025, 5⟩ = some (1746057600, 1748736000)
    ∧ ∃ er, find_files_to_backup tzUtc
        [WalkItem.entry ['a'] true (Except.error 3)] 0 ⟨2025, 5⟩
        = some (Except.error er) :=
  ⟨by decide, by
    apply (claim_C2_scan_error_characterization tzUtc ⟨2025, 5⟩ 0
      1746057600 1748736000 [WalkItem.entry ['a'] true (Except.error 3)]
      (by decide)).mpr
    exact ⟨['a'], Except.error 3, List.mem_cons_self _ _, Or.inl ⟨3, rfl⟩⟩⟩

/-- Claim C10: with a valid target month, `get_month_range_utc` (and with
it `find_files_to_backup`) completes without panicking exactly when the
local timezone gives a unique instant for local midnight of the 1st of the
month and of the 1st of the following month; a nonexistent or ambiguous
local midnight panics the unwrap instead of returning an error. -/
theorem claim_C10_month_range_panic (tz : Tz) (mo : BackupMonth)
    (h1 : 1 ≤ mo.month) (h2 : mo.month ≤ 12) :
    ((get_month_range_utc tz mo).isSome = true ↔
      ((∃ s, tz.fromLocal (naiveMidnight (monthStartDate mo)) = LocalRes.single s)
        ∧ (∃ e, tz.fromLocal (naiveMidnight (monthEndDate mo)) = LocalRes.single e)))
    ∧ ∀ walk cutoff,
        (find_files_to_backup tz walk cutoff mo).isSome
          = (get_month_range_utc tz mo).isSome := by
  constructor
  · rw [get_month_range_eq tz mo h1 h2]
    cases hs : tz.fromLocal (naiveMidnight (monthStartDate mo)) <;>
      cases he : tz.fromLocal (naiveMidnight (monthEndDate mo)) <;>
        simp
  · intro walk cutoff
    unfold find_files_to_backup
    cases hrx : get_month_range_utc tz mo <;> simp

/-- Claim C10, witness: under UTC (every conversion unique) the range for
May 2025 is computed, and an ambiguous local midnight at the month end
makes the function panic. -/
theorem claim_C10_witness :
    ((1:Nat) ≤ 5 ∧ (5:Nat) ≤ 12)
    ∧ (get_month_range_utc tzUtc ⟨2025, 5⟩).isSome = true :=
  ⟨⟨by decide, by decide⟩,
    ((claim_C10_month_range_panic tzUtc ⟨2025, 5⟩ (by decide) (by decide)).1).mpr
      ⟨⟨naiveMidnight (monthStartDate ⟨2025, 5⟩), rfl⟩,
       ⟨naiveMidnight (monthEndDate ⟨2025, 5⟩), rfl⟩⟩⟩

/-! ## Claims C3, C7: main-loop cache discipline and last-backup time -/

lemma monthLoopStep_true_iff (b : Bool) (oc : MonthOutcome) :
    monthLoopStep b oc = true ↔
      b = true ∨ ((∃ files, oc.scan = Except.ok files ∧ files ≠ [])
        ∧ ∃ z, oc.archive = Except.ok z) := by
  obtain ⟨sc, ar⟩ := oc
  cases sc with
  | error e => simp [monthLoopStep]
  | ok files =>
    cases ar with
    | error e =>
      by_cases hf : files = []
      · subst hf; simp [monthLoopStep]
      · simp [monthLoopStep, hf]
    | ok z =>
      by_cases hf : files = []
      · subst hf; simp [monthLoopStep]
      · simp [monthLoopStep, hf]

lemma foldl_monthLoopStep_iff (ocs : List MonthOutcome) :
    ∀ b : Bool, List.foldl monthLoopStep b ocs = true ↔
      b = true ∨ ∃ oc ∈ ocs, (∃ files, oc.scan = Except.ok files ∧ files ≠ [])
        ∧ ∃ z, oc.archive = Except.ok z := by
  induction ocs with
  | nil => simp
  | cons hd tl ih =>
    intro b
    rw [List.foldl_cons, ih (monthLoopStep b hd), monthLoopStep_true_iff]
    constructor
    · rintro ((hb | hcreated) | htl)
      · exact Or.inl hb
      · exact Or.inr ⟨hd, List.mem_cons_self _ _, hcreated⟩
      · obtain ⟨oc, hmem, hc⟩ := htl
        exact Or.inr ⟨oc, List.mem_cons_of_mem _ hmem, hc⟩
    · rintro (hb | ⟨oc, hmem, hc⟩)
      · exact Or.inl (Or.inl hb)
      · rcases List.mem_cons.mp hmem with heq | hmem2
        · subst heq
          exact Or.inl (Or.inr hc)
        · exact Or.inr ⟨oc, hmem2, hc⟩

lemma archivesCreatedRun_iff (ocs : List MonthOutcome) :
    archivesCreatedRun ocs = true ↔
      ∃ oc ∈ ocs, (∃ files, oc.scan = Except.ok files ∧ files ≠ [])
        ∧ ∃ z, oc.archive = Except.ok z := by
  unfold archivesCreatedRun
  rw [foldl_monthLoopStep_iff ocs false]
  simp

/-- Claim C3: over a whole run the cache file is rewritten at most once;
any rewrite happens after the per-month loop and writes exactly the
previously read records with one new record appended; and a rewrite happens
precisely when some month's scan succeeded with a nonempty file list and
its archive was created. -/
theorem claim_C3_cache_update_once (records : List CacheRecord)
    (newRec : CacheRecord) (ocs : List MonthOutcome) :
    (mainCacheWrites records newRec ocs).length ≤ 1
    ∧ (mainCacheWrites records newRec ocs = []
        ∨ mainCacheWrites records newRec ocs = [records ++ [newRec]])
    ∧ (mainCacheWrites records newRec ocs ≠ [] ↔
        ∃ oc ∈ ocs, (∃ files, oc.scan = Except.ok files ∧ files ≠ [])
          ∧ ∃ z, oc.archive = Except.ok z) := by
  unfold mainCacheWrites
  by_cases hflag : archivesCreatedRun ocs = true
  · rw [if_pos hflag]
    exact ⟨by simp, Or.inr rfl, by simpa using (archivesCreatedRun_iff ocs).mp hflag⟩
  · rw [if_neg hflag]
    refine ⟨by simp, Or.inl rfl, ?_⟩
    constructor
    · intro h
      exact absurd rfl h
    · intro hcreated
      exact absurd ((archivesCreatedRun_iff ocs).mpr hcreated) hflag

lemma maxStep_foldl_ne_none (records : List CacheRecord) :
    ∀ acc : CacheRecord, ∃ r, List.foldl maxStep (some acc) records = some r := by
  induction records with
  | nil => intro acc; exact ⟨acc, rfl⟩
  | cons hd tl ih =>
    intro acc
    rw [List.foldl_cons]
    have hstep : maxStep (some acc) hd
        = if acc.end_time ≤ hd.end_time then some hd else some acc := rfl
    rw [hstep]
    split_ifs <;> apply ih

lemma maxStep_foldl_spec (records : List CacheRecord) :
    ∀ (acc r : CacheRecord), List.foldl maxStep (some acc) records = some r →
      (r = acc ∨ r ∈ records)
      ∧ acc.end_time ≤ r.end_time
      ∧ ∀ x ∈ records, x.end_time ≤ r.end_time := by
  induction records with
  | nil =>
    intro acc r h
    cases h
    exact ⟨Or.inl rfl, le_refl _, by simp⟩
  | cons hd tl ih =>
    intro acc r h
    rw [List.foldl_cons] at h
    have hstep : maxStep (some acc) hd
        = if acc.end_time ≤ hd.end_time then some hd else some acc := rfl
    rw [hstep] at h
    by_cases hcmp : acc.end_time ≤ hd.end_time
    · rw [if_pos hcmp] at h
      obtain ⟨hmem, hacc, hall⟩ := ih hd r h
      refine ⟨?_, le_trans hcmp hacc, ?_⟩
      · rcases hmem with heq | hmem2
        · exact Or.inr (heq ▸ List.mem_cons_self _ _)
        · exact Or.inr (List.mem_cons_of_mem _ hmem2)
      · intro x hx
        rcases List.mem_cons.mp hx with heq | hx2
        · exact heq ▸ hacc
        · exact hall x hx2
    · rw [if_neg hcmp] at h
      obtain ⟨hmem, hacc, hall⟩ := ih acc r h
      refine ⟨?_, hacc, ?_⟩
      · rcases hmem with heq | hmem2
        · exact Or.inl heq
        · exact Or.inr (List.mem_cons_of_mem _ hmem2)
      · intro x hx
        rcases List.mem_cons.mp hx with heq | hx2
        · subst heq
          exact le_trans (le_of_not_le hcmp) hacc
        · exact hall x hx2

/-- Claim C7: over an empty record list `get_last_backup_time` returns the
Unix-epoch sentinel 1970-01-01T00:00:00Z, and over a non-empty list it
returns the maximum `end_time`. -/
theorem claim_C7_last_backup_time :
    (get_last_backup_time [] = utcTimestamp 1970 1 1 0 0 0
      ∧ utcTimestamp 1970 1 1 0 0 0 = 0)
    ∧ ∀ records : List CacheRecord, records ≠ [] →
        (∃ r ∈ records, get_last_backup_time records = r.end_time)
        ∧ ∀ r ∈ records, r.end_time ≤ get_last_backup_time records := by
  refine ⟨⟨rfl, by decide⟩, ?_⟩
  intro records hne
  cases records with
  | nil => exact absurd rfl hne
  | cons hd tl =>
    unfold get_last_backup_time maxByEndTime
    rw [List.foldl_cons]
    show _ ∧ _
    have hstart : maxStep none hd = some hd := rfl
    rw [hstart]
    obtain ⟨r, hr⟩ := maxStep_foldl_ne_none tl hd
    obtain ⟨hmem, hacc, hall⟩ := maxStep_foldl_spec tl hd r hr
    rw [hr]
    constructor
    · refine ⟨r, ?_, rfl⟩
      rcases hmem with heq | hmem2
      · exact heq ▸ List.mem_cons_self _ _
      · exact List.mem_cons_of_mem _ hmem2
    · intro x hx
      rcases List.mem_cons.mp hx with heq | hx2
      · exact heq ▸ hacc
      · exact hall x hx2

/-- Claim C7, witness: a two-record list whose maximum end time is 9. -/
theorem claim_C7_witness :
    ([⟨0, 5, []⟩, ⟨1, 9, []⟩] : List CacheRecord) ≠ []
    ∧ (∃ r ∈ ([⟨0, 5, []⟩, ⟨1, 9, []⟩] : List CacheRecord),
          get_last_backup_time [⟨0, 5, []⟩, ⟨1, 9, []⟩] = r.end_time)
    ∧ ∀ r ∈ ([⟨0, 5, []⟩, ⟨1, 9, []⟩] : List CacheRecord),
        r.end_time ≤ get_last_backup_time [⟨0, 5, []⟩, ⟨1, 9, []⟩] :=
  ⟨by simp,
    (claim_C7_last_backup_time.2 [⟨0, 5, []⟩, ⟨1, 9, []⟩] (by simp)).1,
    (claim_C7_last_backup_time.2 [⟨0, 5, []⟩, ⟨1, 9, []⟩] (by simp)).2⟩

/-! ## Digit and filename-format lemmas -/

lemma dc_isDigit (d : Nat) (h : d < 10) : (dc d).isDigit = true := by
  interval_cases d <;> decide

lemma dval_dc (d : Nat) (h : d < 10) : dval (dc d) = d := by
  interval_cases d <;> decide

lemma daysInMonth_le (y : Int) (m : Nat) : daysInMonth y m ≤ 31 := by
  unfold daysInMonth
  split <;> first | omega | (split <;> omega)

lemma pad2_eq (n : Nat) (h : n < 100) : pad2 n = [dc (n / 10), dc (n % 10)] := by
  rw [pad2, if_pos h]

lemma pad4_eq (n : Nat) (h : n < 10000) :
    pad4 n = [dc (n / 1000), dc (n / 100 % 10), dc (n / 10 % 10), dc (n % 10)] := by
  rw [pad4, if_pos h]

lemma fmtY_eq (n : Int) (h0 : 0 ≤ n) (h9 : n ≤ 9999) : fmtY n = pad4 n.toNat := by
  rw [fmtY, if_pos ⟨h0, h9⟩]

lemma fmt04_eq (n : Int) (h0 : 0 ≤ n) : fmt04 n = pad4 n.toNat := by
  rw [fmt04, if_neg (by omega)]

lemma formatTimestamp_eq (t : LocalDateTime) (ht0 : 0 ≤ t.year) (ht9 : t.year ≤ 9999)
    (hv : validLDT t) :
    formatTimestamp t =
      [dc (t.year.toNat / 1000), dc (t.year.toNat / 100 % 10),
       dc (t.year.toNat / 10 % 10), dc (t.year.toNat % 10),
       dc (t.month / 10), dc (t.month % 10),
       dc (t.day / 10), dc (t.day % 10),
       dc (t.hour / 10), dc (t.hour % 10),
       dc (t.minute / 10), dc (t.minute % 10),
       dc (t.second / 10), dc (t.second % 10)] := by
  obtain ⟨h1, h2, h3, h4, h5, h6, h7⟩ := hv
  have hdle := daysInMonth_le t.year t.month
  unfold formatTimestamp
  rw [fmtY_eq t.year ht0 ht9, pad4_eq t.year.toNat (by omega),
    pad2_eq t.month (by omega), pad2_eq t.day (by omega),
    pad2_eq t.hour (by omega), pad2_eq t.minute (by omega),
    pad2_eq t.second (by omega)]
  rfl

/-- The pruner's pattern accepts every archive name the builder produces
(year 0..9999, month two digits) and captures exactly the timestamp. -/
lemma reMatch_zipFileName (year : Int) (month : Nat) (t : LocalDateTime)
    (hy0 : 0 ≤ year) (hy9 : year ≤ 9999) (hm : month < 100)
    (ht0 : 0 ≤ t.year) (ht9 : t.year ≤ 9999) (hv : validLDT t) :
    reMatch (zipFileName year month t) = some (formatTimestamp t) := by
  obtain ⟨h1, h2, h3, h4, h5, h6, h7⟩ := hv
  have hdle := daysInMonth_le t.year t.month
  have g1 : (dc (year.toNat / 1000)).isDigit = true := dc_isDigit _ (by omega)
  have g2 : (dc (year.toNat / 100 % 10)).isDigit = true := dc_isDigit _ (by omega)
  have g3 : (dc (year.toNat / 10 % 10)).isDigit = true := dc_isDigit _ (by omega)
  have g4 : (dc (year.toNat % 10)).isDigit = true := dc_isDigit _ (by omega)
  have g5 : (dc (month / 10)).isDigit = true := dc_isDigit _ (by omega)
  have g6 : (dc (month % 10)).isDigit = true := dc_isDigit _ (by omega)
  have g7 : (dc (t.year.toNat / 1000)).isDigit = true := dc_isDigit _ (by omega)
  have g8 : (dc (t.year.toNat / 100 % 10)).isDigit = true := dc_isDigit _ (by omega)
  have g9 : (dc (t.year.toNat / 10 % 10)).isDigit = true := dc_isDigit _ (by omega)
  have g10 : (dc (t.year.toNat % 10)).isDigit = true := dc_isDigit _ (by omega)
  have g11 : (dc (t.month / 10)).isDigit = true := dc_isDigit _ (by omega)
  have g12 : (dc (t.month % 10)).isDigit = true := dc_isDigit _ (by omega)
  have g13 : (dc (t.day / 10)).isDigit = true := dc_isDigit _ (by omega)
  have g14 : (dc (t.day % 10)).isDigit = true := dc_isDigit _ (by omega)
  have g15 : (dc (t.hour / 10)).isDigit = true := dc_isDigit _ (by omega)
  have g16 : (dc (t.hour % 10)).isDigit = true := dc_isDigit _ (by omega)
  have g17 : (dc (t.minute / 10)).isDigit = true := dc_isDigit _ (by omega)
  have g18 : (dc (t.minute % 10)).isDigit = true := dc_isDigit _ (by omega)
  have g19 : (dc (t.second / 10)).isDigit = true := dc_isDigit _ (by omega)
  have g20 : (dc (t.second % 10)).isDigit = true := dc_isDigit _ (by omega)
  unfold zipFileName
  rw [fmt04_eq year hy0, pad4_eq year.toNat (by omega), pad2_eq month hm,
    formatTimestamp_eq t ht0 ht9 ⟨h1, h2, h3, h4, h5, h6, h7⟩]
  simp [reMatch, captureTs, g1, g2, g3, g4, g5, g6, g7, g8, g9, g10,
    g11, g12, g13, g14, g15, g16, g17, g18, g19, g20]

/-- Parsing the formatted `%Y%m%d%H%M%S` timestamp recovers the date-time
exactly (year 0..9999). -/
lemma parseTimestamp_formatTimestamp (t : LocalDateTime)
    (ht0 : 0 ≤ t.year) (ht9 : t.year ≤ 9999) (hv : validLDT t) :
    parseTimestamp (formatTimestamp t) = some t := by
  obtain ⟨h1, h2, h3, h4, h5, h6, h7⟩ := hv
  have hdle := daysInMonth_le t.year t.month
  have g7 : (dc (t.year.toNat / 1000)).isDigit = true := dc_isDigit _ (by omega)
  have g8 : (dc (t.year.toNat / 100 % 10)).isDigit = true := dc_isDigit _ (by omega)
  have g9 : (dc (t.year.toNat / 10 % 10)).isDigit = true := dc_isDigit _ (by omega)
  have g10 : (dc (t.year.toNat % 10)).isDigit = true := dc_isDigit _ (by omega)
  have g11 : (dc (t.month / 10)).isDigit = true := dc_isDigit _ (by omega)
  have g12 : (dc (t.month % 10)).isDigit = true := dc_isDigit _ (by omega)
  have g13 : (dc (t.day / 10)).isDigit = true := dc_isDigit _ (by omega)
  have g14 : (dc (t.day % 10)).isDigit = true := dc_isDigit _ (by omega)
  have g15 : (dc (t.hour / 10)).isDigit = true := dc_isDigit _ (by omega)
  have g16 : (dc (t.hour % 10)).isDigit = true := dc_isDigit _ (by omega)
  have g17 : (dc (t.minute / 10)).isDigit = true := dc_isDigit _ (by omega)
  have g18 : (dc (t.minute % 10)).isDigit = true := dc_isDigit _ (by omega)
  have g19 : (dc (t.second / 10)).isDigit = true := dc_isDigit _ (by omega)
  have g20 : (dc (t.second % 10)).isDigit = true := dc_isDigit _ (by omega)
  have e1 : ((dval (dc (t.year.toNat / 1000)) * 10
        + dval (dc (t.year.toNat / 100 % 10))) * 10
        + dval (dc (t.year.toNat / 10 % 10))) * 10
        + dval (dc (t.year.toNat % 10)) = t.year.toNat := by
    rw [dval_dc _ (by omega), dval_dc _ (by omega), dval_dc _ (by omega),
      dval_dc _ (by omega)]
    omega
  have e2 : dval (dc (t.month / 10)) * 10 + dval (dc (t.month % 10)) = t.month := by
    rw [dval_dc _ (by omega), dval_dc _ (by omega)]; omega
  have e3 : dval (dc (t.day / 10)) * 10 + dval (dc (t.day % 10)) = t.day := by
    rw [dval_dc _ (by omega), dval_dc _ (by omega)]; omega
  have e4 : dval (dc (t.hour / 10)) * 10 + dval (dc (t.hour % 10)) = t.hour := by
    rw [dval_dc _ (by omega), dval_dc _ (by omega)]; omega
  have e5 : dval (dc (t.minute / 10)) * 10 + dval (dc (t.minute % 10)) = t.minute := by
    rw [dval_dc _ (by omega), dval_dc _ (by omega)]; omega
  have e6 : dval (dc (t.second / 10)) * 10 + dval (dc (t.second % 10)) = t.second := by
    rw [dval_dc _ (by omega), dval_dc _ (by omega)]; omega
  have ecast : ((t.year.toNat : Nat) : Int) = t.year := Int.toNat_of_nonneg ht0
  rw [formatTimestamp_eq t ht0 ht9 ⟨h1, h2, h3, h4, h5, h6, h7⟩]
  simp only [parseTimestamp, g7, g8, g9, g10, g11, g12, g13, g14, g15, g16, g17,
    g18, g19, g20, e1, e2, e3, e4, e5, e6, ecast, and_true, true_and, if_true]
  rw [if_pos ⟨h1, h2, h3, h4, h5, h6, by omega⟩,
    if_neg (show ¬ t.second = 60 by omega)]

/-! ## Claim C5: archive name / pruner round-trip -/

/-- Claim C5: every archive file name `create_archive` produces for a month
(year 0..9999, month 1..12) at a creation time with a 4-digit year matches
the pruner's pattern `^\d{4}-\d{2}_backup_(\d{14})\.zip$` with the
`%Y%m%d%H%M%S` timestamp as the capture, and parsing the capture recovers
the creation time exactly, to second precision. -/
theorem claim_C5_name_roundtrip (year : Int) (month : Nat) (t : LocalDateTime)
    (hy0 : 0 ≤ year) (hy9 : year ≤ 9999) (hm1 : 1 ≤ month) (hm2 : month ≤ 12)
    (ht0 : 0 ≤ t.year) (ht9 : t.year ≤ 9999) (hv : validLDT t) :
    reMatch (zipFileName year month t) = some (formatTimestamp t)
    ∧ parseTimestamp (formatTimestamp t) = some t :=
  ⟨reMatch_zipFileName year month t hy0 hy9 (by omega) ht0 ht9 hv,
   parseTimestamp_formatTimestamp t ht0 ht9 hv⟩

/-- Claim C5, witness: the archive for 2025-05 created at
2025-07-01T12:30:45 round-trips. -/
theorem claim_C5_witness :
    ((0:Int) ≤ 2025 ∧ (2025:Int) ≤ 9999 ∧ (1:Nat) ≤ 5 ∧ (5:Nat) ≤ 12
      ∧ validLDT ⟨2025, 7, 1, 12, 30, 45⟩)
    ∧ reMatch (zipFileName 2025 5 ⟨2025, 7, 1, 12, 30, 45⟩)
        = some (formatTimestamp ⟨2025, 7, 1, 12, 30, 45⟩)
    ∧ parseTimestamp (formatTimestamp ⟨2025, 7, 1, 12, 30, 45⟩)
        = some ⟨2025, 7, 1, 12, 30, 45⟩ :=
  ⟨⟨by decide, by decide, by decide, by decide, by decide⟩,
    (claim_C5_name_roundtrip 2025 5 ⟨2025, 7, 1, 12, 30, 45⟩ (by decide) (by decide)
      (by decide) (by decide) (by decide) (by decide) (by decide)).1,
    (claim_C5_name_roundtrip 2025 5 ⟨2025, 7, 1, 12, 30, 45⟩ (by decide) (by decide)
      (by decide) (by decide) (by decide) (by decide) (by decide)).2⟩

/-! ## Claim C6: retention pruning -/

/-- Characterization of the pruner's loop when every timezone conversion is
unique and no directory entry errors: it succeeds and attempts to remove
exactly the matching, parseable, before-deadline regular files. -/
lemma cleanupGo_spec (tz : Tz) (deadline : Int)
    (htz : ∀ n, ∃ u, tz.fromLocal n = LocalRes.single u) (items : List DirItem)
    (hne : ∀ e, DirItem.dirErr e ∉ items) :
    ∃ del, cleanupGo tz deadline items = some (Except.ok del)
      ∧ ∀ name, name ∈ del ↔
          (DirItem.file name true ∈ items
            ∧ ∃ ts dt u, reMatch name = some ts ∧ parseTimestamp ts = some dt
              ∧ tz.fromLocal (naiveSecondsLDT dt) = LocalRes.single u
              ∧ u < deadline) := by
  induction items with
  | nil => exact ⟨[], rfl, by simp⟩
  | cons hd tl ih =>
    have hne2 : ∀ e, DirItem.dirErr e ∉ tl :=
      fun e he => hne e (List.mem_cons_of_mem _ he)
    obtain ⟨del, hdel, hiff⟩ := ih hne2
    cases hd with
    | dirErr e => exact absurd (List.mem_cons_self _ _) (hne e)
    | file name2 isF =>
      cases isF with
      | false =>
        refine ⟨del, ?_, ?_⟩
        · simp only [cleanupGo, Bool.false_eq_true, if_false]
          exact hdel
        · intro name
          rw [hiff name]
          simp [List.mem_cons]
      | true =>
        cases hre : reMatch name2 with
        | none =>
          refine ⟨del, ?_, ?_⟩
          · simp only [cleanupGo, if_true, hre]
            exact hdel
          · intro name
            rw [hiff name]
            constructor
            · rintro ⟨hmem, hP⟩
              exact ⟨List.mem_cons_of_mem _ hmem, hP⟩
            · rintro ⟨hmem, hP⟩
              rcases List.mem_cons.mp hmem with heq | hmem2
              · injection heq with hn hb
                subst hn
                obtain ⟨ts, dt, u, hts, _⟩ := hP
                rw [hre] at hts
                cases hts
              · exact ⟨hmem2, hP⟩
        | some ts =>
          cases hpt : parseTimestamp ts with
          | none =>
            refine ⟨del, ?_, ?_⟩
            · simp only [cleanupGo, if_true, hre, hpt]
              exact hdel
            · intro name
              rw [hiff name]
              constructor
              · rintro ⟨hmem, hP⟩
                exact ⟨List.mem_cons_of_mem _ hmem, hP⟩
              · rintro ⟨hmem, hP⟩
                rcases List.mem_cons.mp hmem with heq | hmem2
                · injection heq with hn hb
                  subst hn
                  obtain ⟨ts2, dt, u, hts, hdt, _⟩ := hP
                  rw [hre] at hts
                  injection hts with hts2
                  subst hts2
                  rw [hpt] at hdt
                  cases hdt
                · exact ⟨hmem2, hP⟩
          | some dt =>
            obtain ⟨u, hu⟩ := htz (naiveSecondsLDT dt)
            by_cases hlt : u < deadline
            · refine ⟨name2 :: del, ?_, ?_⟩
              · simp only [cleanupGo, if_true, hre, hpt, hu, if_pos hlt, hdel]
              · intro name
                constructor
                · intro hmemdel
                  rcases List.mem_cons.mp hmemdel with heq | hmem2
                  · subst heq
                    exact ⟨List.mem_cons_self _ _, ts, dt, u, hre, hpt, hu, hlt⟩
                  · obtain ⟨hmem3, hP⟩ := (hiff name).mp hmem2
                    exact ⟨List.mem_cons_of_mem _ hmem3, hP⟩
                · rintro ⟨hmem, hP⟩
                  rcases List.mem_cons.mp hmem with heq | hmem2
                  · injection heq with hn hb
                    subst hn
                    exact List.mem_cons_self _ _
                  · exact List.mem_cons_of_mem _ ((hiff name).mpr ⟨hmem2, hP⟩)
            · refine ⟨del, ?_, ?_⟩
              · simp only [cleanupGo, if_true, hre, hpt, hu, if_neg hlt]
                exact hdel
              · intro name
                rw [hiff name]
                constructor
                · rintro ⟨hmem, hP⟩
                  exact ⟨List.mem_cons_of_mem _ hmem, hP⟩
                · rintro ⟨hmem, hP⟩
                  rcases List.mem_cons.mp hmem with heq | hmem2
                  · injection heq with hn hb
                    subst hn
                    obtain ⟨ts2, dt2, u2, hts, hdt, hu2, hlt2⟩ := hP
                    rw [hre] at hts
                    injection hts with hts2
                    subst hts2
                    rw [hpt] at hdt
                    injection hdt with hdt2
                    subst hdt2
                    rw [hu] at hu2
                    injection hu2 with hu3
                    subst hu3
                    exact absurd hlt2 hlt
                  · exact ⟨hmem2, hP⟩

/-- Claim C6: `cleanup_old_backups` is a no-op for `keep_months = 0`;
otherwise — whenever every filename timestamp has a unique local-time
interpretation and no directory entry errors occur — it succeeds and removes
exactly the top-level regular files whose names match the archive pattern
and whose parsed embedded timestamp is strictly before now minus
`30 * keep_months` days, leaving every other file untouched. -/
theorem claim_C6_cleanup_selection (tz : Tz) (now : Int) (items : List DirItem)
    (k : Nat) (htz : ∀ n, ∃ u, tz.fromLocal n = LocalRes.single u)
    (hne : ∀ e, DirItem.dirErr e ∉ items) :
    (cleanup_old_backups tz now items 0 = some (Except.ok []))
    ∧ (k ≠ 0 → ∃ del, cleanup_old_backups tz now items k = some (Except.ok del)
        ∧ ∀ name, name ∈ del ↔
            (DirItem.file name true ∈ items
              ∧ ∃ ts dt u, reMatch name = some ts ∧ parseTimestamp ts = some dt
                ∧ tz.fromLocal (naiveSecondsLDT dt) = LocalRes.single u
                ∧ u < now - 86400 * (30 * (k : Int)))) := by
  constructor
  · rfl
  · intro hk
    unfold cleanup_old_backups
    rw [if_neg hk]
    exact cleanupGo_spec tz _ htz items hne

/-- Claim C6, witness: under UTC, with `keep_months = 3` and "now" at
2025-07-01, the archive named for 2025-03 (timestamp 2025-03-10T10:00:00,
older than the 90-day deadline) is removed, and so is an old archive whose
embedded timestamp names the leap second 2020-01-01T00:00:60, which chrono
parses as second 59 + 10⁹ ns. -/
theorem claim_C6_witness :
    (∀ n, ∃ u, tzUtc.fromLocal n = LocalRes.single u)
    ∧ (∀ e, DirItem.dirErr e ∉
        [DirItem.file (zipFileName 2025 3 ⟨2025, 3, 10, 10, 0, 0⟩) true,
         DirItem.file
           ['2', '0', '2', '0', '-', '0', '1', '_', 'b', 'a', 'c', 'k', 'u', 'p', '_',
            '2', '0', '2', '0', '0', '1', '0', '1', '0', '0', '0', '0', '6', '0',
            '.', 'z', 'i', 'p'] true])
    ∧ ∃ del, cleanup_old_backups tzUtc (utcTimestamp 2025 7 1 0 0 0)
          [DirItem.file (zipFileName 2025 3 ⟨2025, 3, 10, 10, 0, 0⟩) true,
           DirItem.file
             ['2', '0', '2', '0', '-', '0', '1', '_', 'b', 'a', 'c', 'k', 'u', 'p', '_',
              '2', '0', '2', '0', '0', '1', '0', '1', '0', '0', '0', '0', '6', '0',
              '.', 'z', 'i', 'p'] true] 3
        = some (Except.ok del)
        ∧ zipFileName 2025 3 ⟨2025, 3, 10, 10, 0, 0⟩ ∈ del
        ∧ ['2', '0', '2', '0', '-', '0', '1', '_', 'b', 'a', 'c', 'k', 'u', 'p', '_',
           '2', '0', '2', '0', '0', '1', '0', '1', '0', '0', '0', '0', '6', '0',
           '.', 'z', 'i', 'p'] ∈ del :=
  ⟨fun n => ⟨n, rfl⟩, by simp, by
    obtain ⟨del, hdel, hiff⟩ :=
      (claim_C6_cleanup_selection tzUtc (utcTimestamp 2025 7 1 0 0 0)
        [DirItem.file (zipFileName 2025 3 ⟨2025, 3, 10, 10, 0, 0⟩) true,
         DirItem.file
           ['2', '0', '2', '0', '-', '0', '1', '_', 'b', 'a', 'c', 'k', 'u', 'p', '_',
            '2', '0', '2', '0', '0', '1', '0', '1', '0', '0', '0', '0', '6', '0',
            '.', 'z', 'i', 'p'] true] 3
        (fun n => ⟨n, rfl⟩) (by simp)).2 (by decide)
    refine ⟨del, hdel, (hiff _).mpr ⟨by simp, ?_⟩, (hiff _).mpr ⟨by simp, ?_⟩⟩
    · refine ⟨formatTimestamp ⟨2025, 3, 10, 10, 0, 0⟩, ⟨2025, 3, 10, 10, 0, 0⟩,
        naiveSecondsLDT ⟨2025, 3, 10, 10, 0, 0⟩, ?_, ?_, rfl, ?_⟩
      · exact reMatch_zipFileName 2025 3 ⟨2025, 3, 10, 10, 0, 0⟩ (by decide) (by decide)
          (by decide) (by decide) (by decide) (by decide)
      · exact parseTimestamp_formatTimestamp ⟨2025, 3, 10, 10, 0, 0⟩ (by decide)
          (by decide) (by decide)
      · decide
    · exact ⟨['2', '0', '2', '0', '0', '1', '0', '1', '0', '0', '0', '0', '6', '0'],
        ⟨2020, 1, 1, 0, 0, 59⟩, naiveSecondsLDT ⟨2020, 1, 1, 0, 0, 59⟩,
        by decide, by decide, rfl, by decide⟩⟩
